import Mathlib

/-!
Verification development for the lazy-asset subsystem of the dejavu
snapshot-and-sync engine (files `lazy.go`, `lazy_index_manager.go` and the
alternative revision of `lazy.go` kept in the repository).

Go strings are modelled as lists of characters, Go `int64` as `Int`,
Go maps as association lists with Go-map lookup/insert semantics, byte
slices as lists of naturals, and the filesystem / cloud transport as
explicit function parameters.  Fallible Go functions return `Except`.
-/

namespace Dejavu

/-- Go strings, modelled as lists of characters. -/
abbrev GoStr := List Char

/-- Shorthand turning a Lean string literal into a `GoStr`. -/
def str (s : String) : GoStr := s.data

/-- Byte slices (`[]byte`), modelled as lists of naturals. -/
abbrev Bytes := List Nat

/-- Model of Go `strings.HasPrefix s p`. -/
def goStartsWith : GoStr → GoStr → Bool
  | _, [] => true
  | [], _ :: _ => false
  | c :: cs, d :: ds => (c == d) && goStartsWith cs ds

/-- Model of Go `strings.HasSuffix s p`. -/
def goEndsWith (s p : GoStr) : Bool := goStartsWith s.reverse p.reverse

/-- Model of Go `strings.TrimPrefix s p` (removes one occurrence of the
leading pattern, if present). -/
def goTrimPre (s p : GoStr) : GoStr :=
  if goStartsWith s p then s.drop p.length else s

/-- Model of Go `strings.TrimSuffix s p` (removes one occurrence of the
trailing pattern, if present). -/
def goTrimSuf (s p : GoStr) : GoStr :=
  if goEndsWith s p then s.take (s.length - p.length) else s

/-- Model of Go `strings.Contains s sub`. -/
def goContainsStr (s sub : GoStr) : Bool :=
  match s with
  | [] => goStartsWith [] sub
  | _ :: rest => goStartsWith s sub || goContainsStr rest sub

/-- The path separator `"/"` used on the wire. -/
def slash : GoStr := ['/']

/-- Go map lookup (`m[k]`), on the association-list model of a map. -/
def alLookup {β : Type} : List (GoStr × β) → GoStr → Option β
  | [], _ => none
  | (k, v) :: rest, key => if k = key then some v else alLookup rest key

/-- Go map write (`m[k] = v`): replace the binding if the key is present,
otherwise add it. -/
def alInsert {β : Type} : List (GoStr × β) → GoStr → β → List (GoStr × β)
  | [], k, v => [(k, v)]
  | (k0, v0) :: rest, k, v =>
      if k0 = k then (k, v) :: rest else (k0, v0) :: alInsert rest k v

/-- Go `type LazyStatus int` (`lazy.go`): a plain machine integer. -/
abbrev LazyStatus := Int

/-- Constant `LazyStatusPending` (iota value 0). -/
def LazyStatusPending : LazyStatus := 0

/-- Constant `LazyStatusDownloading` (iota value 1). -/
def LazyStatusDownloading : LazyStatus := 1

/-- Constant `LazyStatusCached` (iota value 2). -/
def LazyStatusCached : LazyStatus := 2

/-- Constant `LazyStatusError` (iota value 3). -/
def LazyStatusErrorC : LazyStatus := 3

/-- Record `LazyAsset` of `lazy.go`: one record per lazy path. -/
structure LazyAsset where
  path : GoStr
  fileID : GoStr
  size : Int
  hash : GoStr
  modified : Int
  chunks : List GoStr
  status : LazyStatus
deriving DecidableEq, Repr

/-- The Go zero value `LazyAsset{}`. -/
def emptyLazyAsset : LazyAsset :=
  { path := [], fileID := [], size := 0, hash := [], modified := 0,
    chunks := [], status := 0 }

/-- Record `entity.File`: id, path, size, updated (ms epoch), ordered chunk ids. -/
structure File where
  id : GoStr
  path : GoStr
  size : Int
  updated : Int
  chunks : List GoStr
deriving DecidableEq, Repr

/-- Record `LazyManifest` of `lazy.go`: version, path-keyed asset map, last write. -/
structure LazyManifest where
  version : GoStr
  assets : List (GoStr × LazyAsset)
  updated : Int
deriving DecidableEq, Repr

/-- One pattern test of `isLazyLoadingFile` (`lazy_index_manager.go:352-376`,
loop body): trailing-star patterns match by literal prefix/substring after
one star is trimmed, `*.`-patterns match by suffix, and bare patterns match
the whole path or a path suffix component. -/
def lazyPatternMatches (filePath pattern : GoStr) : Bool :=
  if goEndsWith pattern (str "*") then
    goStartsWith filePath (slash ++ goTrimSuf pattern (str "*")) ||
      goContainsStr filePath (slash ++ goTrimSuf pattern (str "*"))
  else if goStartsWith pattern (str "*.") then
    goEndsWith filePath (goTrimPre pattern (str "*"))
  else
    (filePath == slash ++ pattern) || goEndsWith filePath (slash ++ pattern)

/-- Function `isLazyLoadingFile` (`lazy_index_manager.go:352-376`): an empty pattern
set never matches; otherwise the path is lazy when some pattern matches. -/
def isLazyLoadingFile (patterns : List GoStr) (filePath : GoStr) : Bool :=
  if patterns.isEmpty then false
  else patterns.any (lazyPatternMatches filePath)

/-- Manifest lookup of `LoadAsset` (`lazy.go:123-145`): try the key
directly; on a miss retry with a leading separator prepended when the input
lacks one, or with the leading separator removed when it has one. -/
def loadAssetLookup (assets : List (GoStr × LazyAsset)) (path : GoStr) :
    Option LazyAsset :=
  match alLookup assets path with
  | some a => some a
  | none =>
      if goStartsWith path slash then alLookup assets (goTrimPre path slash)
      else alLookup assets (slash ++ path)

/-- Manifest lookup of `updateLazyManifest` (`lazy.go:370-383`): same
two-spelling fallback as `loadAssetLookup`, but it also reports the map key
under which the record was found, because the caller mutates the record in
place under that key. -/
def lookupAssetEntry (assets : List (GoStr × LazyAsset)) (path : GoStr) :
    Option (GoStr × LazyAsset) :=
  match alLookup assets path with
  | some a => some (path, a)
  | none =>
      if goStartsWith path slash then
        match alLookup assets (goTrimPre path slash) with
        | some a => some (goTrimPre path slash, a)
        | none => none
      else
        match alLookup assets (slash ++ path) with
        | some a => some (slash ++ path, a)
        | none => none

/-- Function `getManifest` (`lazy.go:289-316`): return the cached manifest if any;
otherwise, when the manifest file is absent, a fresh empty manifest;
otherwise the result of `json.Unmarshal` on the stored file.  Go's
`json.Unmarshal` decodes every field of the stored record verbatim — in
particular the `status` field of each asset is an `int` stored as-is, with
no range check or normalization. -/
def getManifest (cached : Option LazyManifest) (diskFile : Option LazyManifest)
    (now : Int) : LazyManifest :=
  match cached with
  | some m => m
  | none =>
      match diskFile with
      | none => { version := str "1.0", assets := [], updated := now }
      | some m => m

/-- Chunk deep-compare loop of `hasLazyFileConflict` (`lazy.go:473-478`):
walk the observed file's chunk ids; a mismatch is an index beyond the end of
the asset's list or a differing id at the same index. -/
def chunksMismatch : List GoStr → List GoStr → Bool
  | _, [] => false
  | [], _ :: _ => true
  | a :: as, f :: fs => (a ≠ f) || chunksMismatch as fs

/-- Function `hasLazyFileConflict` (`lazy.go:459-481`): a conflict is a differing
modified time, size, chunk count, or per-chunk id. -/
def hasLazyFileConflict (asset : LazyAsset) (file : File) : Bool :=
  if asset.modified ≠ file.updated then true
  else if asset.size ≠ file.size then true
  else if asset.chunks.length ≠ file.chunks.length then true
  else chunksMismatch asset.chunks file.chunks

/-- Assignment block of `updateLazyManifest` (`lazy.go:421-449`): overwrite
the entry's path, fileId, size, modified and chunks with the observed file's
values (the `hash` field is not assigned), then set the status from the
working tree: `Cached` when the bytes exist locally under the path with the
leading separator trimmed, `Pending` otherwise. -/
def applyFileToAsset (tree : GoStr → Bool) (old : LazyAsset) (file : File) :
    LazyAsset :=
  { old with
    path := file.path
    fileID := file.id
    size := file.size
    modified := file.updated
    chunks := file.chunks
    status :=
      if tree (goTrimPre file.path slash) then LazyStatusCached
      else LazyStatusPending }

/-- Conflict decision of `updateLazyManifest` (`lazy.go:393-419`) for an
existing entry: adopt the observation unless a detected conflict resolves in
favour of the existing entry.  Returns `true` when the assignment block is
reached and `false` when the loop `continue`s with the entry kept. -/
def lazyConflictAdopt (asset : LazyAsset) (file : File) : Bool :=
  if hasLazyFileConflict asset file then
    if asset.modified < file.updated then true
    else if file.updated < asset.modified then false
    else if file.size ≠ asset.size ∨ file.chunks.length ≠ asset.chunks.length then true
    else false
  else true

/-- Resolution of one existing manifest entry against one observed file
(`lazy.go:390-449`): the entry is overwritten by the assignment block when
`lazyConflictAdopt` holds and kept unchanged otherwise. -/
def resolveExistingLazyAsset (tree : GoStr → Bool) (asset : LazyAsset)
    (file : File) : LazyAsset :=
  if lazyConflictAdopt asset file then applyFileToAsset tree asset file
  else asset

/-- Function `uploadLazyFileChunks` builds `objects/<first-2>/<rest>` from a chunk id
(`lazy.go:495`). -/
def chunkObjectPath (chunkID : GoStr) : GoStr :=
  str "objects/" ++ chunkID.take 2 ++ str "/" ++ chunkID.drop 2

/-- Chunk loop of `uploadLazyFileChunks` (`lazy.go:491-505`): upload each
chunk object in order, returning the first failure. -/
def uploadChunksLoop (uploadObject : GoStr → Except GoStr Unit) :
    List GoStr → Except GoStr Unit
  | [] => .ok ()
  | chunkID :: rest =>
      match uploadObject (chunkObjectPath chunkID) with
      | .error e => .error e
      | .ok _ => uploadChunksLoop uploadObject rest

/-- Function `uploadLazyFileChunks` (`lazy.go:484-509`): error when no cloud is
configured, otherwise upload every chunk of the file in order. -/
def uploadLazyFileChunks (cloud : Option (GoStr → Except GoStr Unit))
    (file : File) : Except GoStr Unit :=
  match cloud with
  | none => .error (str "cloud storage not configured")
  | some uploadObject => uploadChunksLoop uploadObject file.chunks

/-- Upload step of `updateLazyManifest` (`lazy.go:428-436`): when the file
has chunks, call the uploader; a failure is only logged (`// do not
interrupt the flow, only log the error`), so the model appends the error
message to the log and continues. -/
def uploadLog (log : List GoStr) (up : File → Except GoStr Unit)
    (file : File) : List GoStr :=
  if 0 < file.chunks.length then
    match up file with
    | .ok _ => log
    | .error e => log ++ [e]
  else log

/-- Loop body of `updateLazyManifest` (`lazy.go:359-450`) acting on the
asset map and the error log: skip invalid files (no chunks but positive
size); look the path up under both spellings; create a fresh entry or run
the conflict resolution; on adoption attempt the chunk upload (errors
logged, not propagated). -/
def updateLazyManifestStep (tree : GoStr → Bool)
    (up : File → Except GoStr Unit)
    (st : List (GoStr × LazyAsset) × List GoStr) (file : File) :
    List (GoStr × LazyAsset) × List GoStr :=
  if file.chunks.length = 0 ∧ 0 < file.size then st
  else
    match lookupAssetEntry st.1 file.path with
    | none =>
        (alInsert st.1 file.path (applyFileToAsset tree emptyLazyAsset file),
         uploadLog st.2 up file)
    | some (key, asset) =>
        if lazyConflictAdopt asset file then
          (alInsert st.1 key (applyFileToAsset tree asset file),
           uploadLog st.2 up file)
        else st

/-- Function `updateLazyManifest` (`lazy.go:343-456`): fold the loop body over the
lazy files, then return the saved manifest's asset map (`saveManifest`'s
result decides the returned error).  The second component is the log of
swallowed upload errors. -/
def updateLazyManifest (tree : GoStr → Bool) (up : File → Except GoStr Unit)
    (save : List (GoStr × LazyAsset) → Except GoStr Unit)
    (assets : List (GoStr × LazyAsset)) (lazyFiles : List File) :
    Except GoStr (List (GoStr × LazyAsset)) × List GoStr :=
  let st := lazyFiles.foldl (updateLazyManifestStep tree up) (assets, [])
  (match save st.1 with
   | .ok _ => .ok st.1
   | .error e => .error e,
   st.2)

/-- Working tree as seen through `gulu.File.IsExist` and `os.Stat`,
keyed by the data-relative cleaned path; `statInfo` returns the size and
modified time (ms) when `os.Stat` succeeds. -/
structure WorkingTree where
  isExist : GoStr → Bool
  statInfo : GoStr → Option (Int × Int)

/-- Per-asset body of `getLazyFilesForIndex` (`lazy.go:523-562`): when the
bytes exist locally, emit a File with fresh size/mtime from `os.Stat` and
the manifest's chunks (nothing on a stat error); when the bytes are absent,
emit a virtual File from the manifest entry only when its chunk list is
non-empty, and skip the entry otherwise. -/
def lazyIndexEntry (tree : WorkingTree) (asset : LazyAsset) : List File :=
  let cleanPath := goTrimPre asset.path slash
  if tree.isExist cleanPath then
    match tree.statInfo cleanPath with
    | some info =>
        [{ id := asset.fileID, path := asset.path, size := info.1,
           updated := info.2, chunks := asset.chunks }]
    | none => []
  else if 0 < asset.chunks.length then
    [{ id := asset.fileID, path := asset.path, size := asset.size,
       updated := asset.modified, chunks := asset.chunks }]
  else []

/-- Function `getLazyFilesForIndex` (`lazy.go:512-565`): concatenate the per-asset
entries over the manifest's assets in iteration order. -/
def getLazyFilesForIndex (tree : WorkingTree) : List LazyAsset → List File
  | [] => []
  | asset :: rest => lazyIndexEntry tree asset ++ getLazyFilesForIndex tree rest

/-- Record `entity.Index`, reduced to the only field the lazy index manager reads. -/
structure IndexEntity where
  id : GoStr
deriving DecidableEq, Repr

/-- The state of a `LazyIndexManager` (`lazy_index_manager.go:34-41`) together
with the persisted `lazy-index.json` (`disk` holds the last saved
`(lastCloudID, lazyFiles)` pair, `none` before the first save). -/
structure LazyIndexManagerState where
  patterns : List GoStr
  lazyFiles : List (GoStr × File)
  lastCloudID : GoStr
  disk : Option (GoStr × List (GoStr × File))
deriving DecidableEq, Repr

/-- Function `save` (`lazy_index_manager.go:379-395`): persist the high-water mark
and the lazy file map. -/
def lazyIndexSave (s : LazyIndexManagerState) : LazyIndexManagerState :=
  { s with disk := some (s.lastCloudID, s.lazyFiles) }

/-- Loop body of `UpdateFromCloudIndex` (`lazy_index_manager.go:106-118`):
a cloud file whose path matches the pattern set replaces an existing entry
when the updated times differ, or is added when absent; non-matching paths
leave the map untouched. -/
def updateFromCloudFile (patterns : List GoStr) (m : List (GoStr × File))
    (file : File) : List (GoStr × File) :=
  if isLazyLoadingFile patterns file.path then
    match alLookup m file.path with
    | some oldFile =>
        if oldFile.updated ≠ file.updated then alInsert m file.path file else m
    | none => alInsert m file.path file
  else m

/-- The whole cloud-file pass of `UpdateFromCloudIndex`, in iteration
order. -/
def applyCloudFiles (patterns : List GoStr) (m : List (GoStr × File))
    (files : List File) : List (GoStr × File) :=
  files.foldl (updateFromCloudFile patterns) m

/-- Function `UpdateFromCloudIndex` (`lazy_index_manager.go:92-129`): when the cloud
index id equals the recorded high-water mark, return immediately with no
error and no mutation; otherwise fold the cloud files into the map, record
the new high-water mark and save.  The second component is the returned
error (`none` for nil; the model treats the local `save` write as
succeeding). -/
def UpdateFromCloudIndex (s : LazyIndexManagerState) (cloudIndex : IndexEntity)
    (cloudFiles : List File) : LazyIndexManagerState × Option GoStr :=
  if cloudIndex.id = s.lastCloudID then (s, none)
  else
    let m := applyCloudFiles s.patterns s.lazyFiles cloudFiles
    (lazyIndexSave { s with lazyFiles := m, lastCloudID := cloudIndex.id }, none)

/-- Function `AddLazyFile` (`lazy_index_manager.go:282-294`): insert the file under
its path and save, but only when the path matches the pattern set. -/
def AddLazyFile (s : LazyIndexManagerState) (file : File) :
    LazyIndexManagerState :=
  if isLazyLoadingFile s.patterns file.path then
    lazyIndexSave { s with lazyFiles := alInsert s.lazyFiles file.path file }
  else s

/-- Chunk loop of `downloadAsset` as implemented in `src/lazy.go:199-235`:
on a local miss, download the object from the cloud and store and
concatenate the downloaded bytes as they arrived (no decode step). -/
def downloadAssetLoop (cloudDownload : GoStr → Except GoStr Bytes)
    (store : List (GoStr × Bytes)) (data : Bytes) :
    List GoStr → Except GoStr (List (GoStr × Bytes) × Bytes)
  | [] => .ok (store, data)
  | chunkID :: rest =>
      match alLookup store chunkID with
      | some chunk => downloadAssetLoop cloudDownload store (data ++ chunk) rest
      | none =>
          match cloudDownload (chunkObjectPath chunkID) with
          | .error e => .error e
          | .ok cloudData =>
              downloadAssetLoop cloudDownload
                (alInsert store chunkID cloudData) (data ++ cloudData) rest

/-- Chunk loop of `downloadAsset` as implemented in the repository's other
revision of `lazy.go` (`src/unnamed/part_000:164-196`): on a local miss,
download the object, decode it through the store codec
(`repo.store.DecodeData`, decompress + decrypt), store the decoded bytes
locally and concatenate the decoded bytes. -/
def downloadAssetLoopDecoded (cloudDownload : GoStr → Except GoStr Bytes)
    (decodeData : Bytes → Except GoStr Bytes)
    (store : List (GoStr × Bytes)) (data : Bytes) :
    List GoStr → Except GoStr (List (GoStr × Bytes) × Bytes)
  | [] => .ok (store, data)
  | chunkID :: rest =>
      match alLookup store chunkID with
      | some chunk =>
          downloadAssetLoopDecoded cloudDownload decodeData store
            (data ++ chunk) rest
      | none =>
          match cloudDownload (chunkObjectPath chunkID) with
          | .error e => .error e
          | .ok cloudData =>
              match decodeData cloudData with
              | .error e => .error e
              | .ok decoded =>
                  downloadAssetLoopDecoded cloudDownload decodeData
                    (alInsert store chunkID decoded) (data ++ decoded) rest

/-- Whether an `Except` result is a success (`err == nil` in Go). -/
def exceptIsOk {ε α : Type} : Except ε α → Bool
  | .ok _ => true
  | .error _ => false

/-- Resolution rule in the words of the amended conflict claim: adopt when
the observed modified time is greater; keep when smaller; when the times are
equal, keep exactly when the sizes and chunk counts agree but the chunk id
lists differ, and otherwise adopt (rewriting the entry with the observed
values).  Stated separately so the code's resolution can be proved equal to
it. -/
def resolveLazyEntrySpec (tree : GoStr → Bool) (asset : LazyAsset)
    (file : File) : LazyAsset :=
  if asset.modified < file.updated then applyFileToAsset tree asset file
  else if file.updated < asset.modified then asset
  else if asset.size = file.size ∧ asset.chunks.length = file.chunks.length ∧
      asset.chunks ≠ file.chunks then asset
  else applyFileToAsset tree asset file

/-- A working tree with no bytes on disk for any path. -/
def treeAbsent : WorkingTree :=
  { isExist := fun _ => false, statInfo := fun _ => none }

/-- An existence check reporting no local bytes for any path. -/
def noLocalBytes : GoStr → Bool := fun _ => false

/-- A `saveManifest` stand-in whose disk write succeeds. -/
def saveOk : List (GoStr × LazyAsset) → Except GoStr Unit := fun _ => .ok ()

/-- An object uploader whose every request fails. -/
def upObjFail : GoStr → Except GoStr Unit := fun _ => .error (str "network down")

/-- A manifest entry used in concrete checks. -/
def assetC1 : LazyAsset :=
  { path := str "/large-files/v.mp4", fileID := str "fid", size := 5120,
    hash := [], modified := 9, chunks := [str "c1", str "c2"], status := 0 }

/-- A lazy file whose chunk upload will be attempted during a manifest
update. -/
def fileC2 : File :=
  { id := str "f1", path := str "/assets/v.mp4", size := 3, updated := 5,
    chunks := [str "aabbcc"] }

/-- An existing manifest entry: modified 5, size 10, chunks `[ca, cb]`. -/
def assetC3 : LazyAsset :=
  { path := str "/assets/x", fileID := str "old", size := 10, hash := [],
    modified := 5, chunks := [str "ca", str "cb"], status := 0 }

/-- An observation with the same modified time, size and chunk count as
`assetC3` but a different second chunk id. -/
def fileC3 : File :=
  { id := str "new", path := str "/assets/x", size := 10, updated := 5,
    chunks := [str "ca", str "cc"] }

/-- A cloud transport holding one object: the (still encoded) bytes
`[1, 2, 3]` under the object path of chunk id `ab12`. -/
def cloud4 : GoStr → Except GoStr Bytes := fun p =>
  if p = chunkObjectPath (str "ab12") then .ok [1, 2, 3]
  else .error (str "object missing")

/-- A codec whose decode (decompress + decrypt) turns `[1, 2, 3]` into
`[7, 8]`. -/
def decode4 : Bytes → Except GoStr Bytes := fun b =>
  if b = [1, 2, 3] then .ok [7, 8] else .error (str "decode failed")

/-- A stored asset whose on-disk status code 7 is outside the four defined
status values. -/
def assetStatus7 : LazyAsset :=
  { path := str "/a.png", fileID := str "f", size := 1, hash := [],
    modified := 0, chunks := [str "c"], status := 7 }

/-- A stored manifest file containing `assetStatus7`. -/
def manifest7 : LazyManifest :=
  { version := str "1.0", assets := [(str "/a.png", assetStatus7)],
    updated := 0 }

/-- A lazy file tracked by the index manager in concrete checks. -/
def fileV : File :=
  { id := str "fv", path := str "/assets/v.mp4", size := 5120, updated := 9,
    chunks := [str "c1", str "c2"] }

/-- A newer cloud observation of the same path as `fileV`. -/
def fileV2 : File :=
  { fileV with id := str "fv2", updated := 11 }

/-- An index-manager state tracking `fileV` with high-water mark `abc`. -/
def limState0 : LazyIndexManagerState :=
  { patterns := [str "assets/*"], lazyFiles := [(str "/assets/v.mp4", fileV)],
    lastCloudID := str "abc", disk := none }

theorem goStartsWith_append (p s : GoStr) : goStartsWith (p ++ s) p = true := by
  induction p with
  | nil => cases s <;> simp [goStartsWith]
  | cons c cs ih => simp [goStartsWith, ih]

theorem goTrimPre_append (p s : GoStr) : goTrimPre (p ++ s) p = s := by
  simp [goTrimPre, goStartsWith_append]

theorem alLookup_alInsert_self {β : Type} (m : List (GoStr × β)) (k : GoStr) (v : β) :
    alLookup (alInsert m k v) k = some v := by
  induction m with
  | nil => simp [alInsert, alLookup]
  | cons kv rest ih =>
      by_cases h : kv.1 = k <;> simp [alInsert, alLookup, h, ih]

theorem alLookup_alInsert_ne {β : Type} (m : List (GoStr × β)) (k p : GoStr) (v : β)
    (h : p ≠ k) : alLookup (alInsert m k v) p = alLookup m p := by
  have hk : ¬ k = p := fun he => h he.symm
  induction m with
  | nil => simp [alInsert, alLookup, hk]
  | cons kv rest ih =>
      by_cases h0 : kv.1 = k
      · simp [alInsert, alLookup, h0, hk]
      · by_cases h1 : kv.1 = p
        · simp [alInsert, alLookup, h0, h1, h]
        · simp [alInsert, alLookup, h0, h1, ih]

theorem mem_getLazyFilesForIndex {tree : WorkingTree} {assets : List LazyAsset}
    {asset : LazyAsset} {f : File} (hmem : asset ∈ assets)
    (hf : f ∈ lazyIndexEntry tree asset) :
    f ∈ getLazyFilesForIndex tree assets := by
  induction assets with
  | nil => cases hmem
  | cons a rest ih =>
      rcases List.mem_cons.mp hmem with h | h
      · subst h
        exact List.mem_append.mpr (Or.inl hf)
      · exact List.mem_append.mpr (Or.inr (ih h))

/-- Claim C4: the load path must decode every remotely fetched chunk through the
base engine's codec before storing and using it.  The `downloadAsset` in
`src/lazy.go` does not: it stores the raw downloaded bytes and concatenates
them into the file, while the repository's other revision of the same
function (`src/unnamed/part_000`) decodes first.  At a store missing chunk
`ab12` whose remote object bytes `[1,2,3]` decode to `[7,8]`, the shipped
code stores and returns the encoded bytes. -/
theorem downloadAsset_missing_decode_bug :
    downloadAssetLoop cloud4 [] [] [str "ab12"] =
      .ok ([(str "ab12", [1, 2, 3])], [1, 2, 3])
  ∧ downloadAssetLoopDecoded cloud4 decode4 [] [] [str "ab12"] =
      .ok ([(str "ab12", [7, 8])], [7, 8])
  ∧ ([1, 2, 3] : Bytes) ≠ [7, 8] := by
  refine ⟨rfl, rfl, by decide⟩

/-- Claim C6: when a manifest record is stored under one spelling of a path and a
lookup is made with the other spelling (leading separator added or
removed), the fallback of `LoadAsset`'s manifest lookup finds the record
once the direct key misses. -/
theorem LoadAsset_path_spelling_tolerance (assets : List (GoStr × LazyAsset))
    (k p : GoStr) (a : LazyAsset)
    (hspell : (p = slash ++ k ∧ goStartsWith k slash = false) ∨
              (k = slash ++ p ∧ goStartsWith p slash = false))
    (hstore : alLookup assets k = some a)
    (hmiss : alLookup assets p = none) :
    loadAssetLookup assets p = some a := by
  rcases hspell with ⟨hp, hk⟩ | ⟨hk, hp⟩
  · subst hp
    simp [loadAssetLookup, hmiss, goStartsWith_append, goTrimPre_append, hstore]
  · subst hk
    simp [loadAssetLookup, hmiss, hp, hstore]

/-- Claim C6 witness: key stored as `assets/a.png`, lookup with `/assets/a.png`
succeeds. -/
theorem LoadAsset_path_spelling_tolerance_witness :
    loadAssetLookup [(str "assets/a.png", emptyLazyAsset)]
      (str "/assets/a.png") = some emptyLazyAsset :=
  LoadAsset_path_spelling_tolerance [(str "assets/a.png", emptyLazyAsset)]
    (str "assets/a.png") (str "/assets/a.png") emptyLazyAsset
    (Or.inl ⟨by decide, by decide⟩) (by decide) (by decide)

/-- Claim C7: the claim requires gitignore `**` semantics: `cache/**` should match
every path under `cache/`, e.g. `/cache/subdir/file.txt` — the repository's
own test `TestLazyLoadingPatternMatching` expects exactly that.  The shipped
matcher trims only one trailing star and then matches the remaining
`cache/*` as a literal prefix/substring, so both nested and direct children
fail to match; a single-star pattern does match, and the empty pattern set
returns false. -/
theorem isLazyLoadingFile_doublestar_bug :
    isLazyLoadingFile [str "cache/**"] (str "/cache/subdir/file.txt") = false
  ∧ isLazyLoadingFile [str "cache/**"] (str "/cache/cached_data.json") = false
  ∧ isLazyLoadingFile [str "cache/*"] (str "/cache/subdir/file.txt") = true
  ∧ isLazyLoadingFile [] (str "/cache/subdir/file.txt") = false := by
  decide

/-- Claim C8 counterexample: a stored asset with status code 7 (outside the four
defined values) is loaded with status 7, not `LazyStatusPending`. -/
theorem getManifest_unknown_status_not_pending :
    alLookup (getManifest none (some manifest7) 0).assets (str "/a.png") =
      some assetStatus7
  ∧ assetStatus7.status ≠ LazyStatusPending
  ∧ assetStatus7.status ≠ LazyStatusDownloading
  ∧ assetStatus7.status ≠ LazyStatusCached
  ∧ assetStatus7.status ≠ LazyStatusErrorC := by
  refine ⟨by decide, by decide, by decide, by decide, by decide⟩

/-- Claim C8 amended: manifest load returns the stored records verbatim —
`json.Unmarshal` performs no status normalization, so any status code,
including those outside 0..3, survives the load unchanged. -/
theorem getManifest_status_verbatim (m : LazyManifest) (now : Int)
    (p : GoStr) (a : LazyAsset) (h : alLookup m.assets p = some a) :
    alLookup (getManifest none (some m) now).assets p = some a := h

/-- Claim C8 amended witness: the status-7 record survives the load as stored. -/
theorem getManifest_status_verbatim_witness :
    alLookup (getManifest none (some manifest7) 0).assets (str "/a.png") =
      some assetStatus7 :=
  getManifest_status_verbatim manifest7 0 (str "/a.png") assetStatus7 (by decide)

/-- Claim C9: when the cloud index id equals the recorded high-water mark,
`UpdateFromCloudIndex` returns without error and leaves the whole manager
state — lazy file map, high-water mark and the persisted index file —
unchanged. -/
theorem UpdateFromCloudIndex_skip_if_unchanged (s : LazyIndexManagerState)
    (ci : IndexEntity) (cf : List File) (h : ci.id = s.lastCloudID) :
    UpdateFromCloudIndex s ci cf = (s, none) := by
  simp [UpdateFromCloudIndex, h]

/-- Claim C9 witness: a concrete state with the matching high-water mark is left
untouched even when the cloud files carry a newer observation. -/
theorem UpdateFromCloudIndex_skip_if_unchanged_witness :
    UpdateFromCloudIndex limState0 ⟨str "abc"⟩ [fileV2] = (limState0, none) :=
  UpdateFromCloudIndex_skip_if_unchanged limState0 ⟨str "abc"⟩ [fileV2]
    (by decide)

/-- Claim C1: a manifest entry whose path has no bytes in the working tree still
contributes a File with the manifest's fileId, size, modified time and
chunks to the list built for snapshot construction, provided its chunk list
is non-empty; an entry with an empty chunk list contributes nothing. -/
theorem getLazyFilesForIndex_no_ghost_deletion (tree : WorkingTree)
    (assets : List LazyAsset) (asset : LazyAsset) (hmem : asset ∈ assets)
    (habsent : tree.isExist (goTrimPre asset.path slash) = false) :
    (asset.chunks ≠ [] →
        ({ id := asset.fileID, path := asset.path, size := asset.size,
           updated := asset.modified, chunks := asset.chunks } : File)
          ∈ getLazyFilesForIndex tree assets)
  ∧ (asset.chunks = [] → lazyIndexEntry tree asset = []) := by
  constructor
  · intro hch
    refine mem_getLazyFilesForIndex hmem ?_
    have hne : 0 < asset.chunks.length := List.length_pos.mpr hch
    simp [lazyIndexEntry, habsent, hne]
  · intro hch
    simp [lazyIndexEntry, habsent, hch]

/-- Claim C1 witness: with no local bytes, the manifest entry `assetC1` yields the
virtual File with its fileId, size, modified time and chunks. -/
theorem getLazyFilesForIndex_no_ghost_deletion_witness :
    ({ id := str "fid", path := str "/large-files/v.mp4", size := 5120,
       updated := 9, chunks := [str "c1", str "c2"] } : File)
      ∈ getLazyFilesForIndex treeAbsent [assetC1] :=
  (getLazyFilesForIndex_no_ghost_deletion treeAbsent [assetC1] assetC1
      (by simp) rfl).1 (by decide)

theorem exceptIsOk_ok {ε α : Type} (a : α) :
    exceptIsOk (.ok a : Except ε α) = true := rfl

theorem exceptIsOk_error {ε α : Type} (e : ε) :
    exceptIsOk (.error e : Except ε α) = false := rfl

theorem uploadChunksLoop_ok_iff (upObject : GoStr → Except GoStr Unit)
    (l : List GoStr) :
    exceptIsOk (uploadChunksLoop upObject l) = true ↔
      ∀ c ∈ l, exceptIsOk (upObject (chunkObjectPath c)) = true := by
  induction l with
  | nil => simp [uploadChunksLoop, exceptIsOk_ok]
  | cons c rest ih =>
      cases h : upObject (chunkObjectPath c) with
      | error e => simp [uploadChunksLoop, h, exceptIsOk_error]
      | ok u => simp [uploadChunksLoop, h, exceptIsOk_ok, ih]

theorem updateLazyManifestStep_fst (tree : GoStr → Bool)
    (u1 u2 : File → Except GoStr Unit)
    (a : List (GoStr × LazyAsset)) (l1 l2 : List GoStr) (file : File) :
    (updateLazyManifestStep tree u1 (a, l1) file).1 =
    (updateLazyManifestStep tree u2 (a, l2) file).1 := by
  by_cases h0 : file.chunks.length = 0 ∧ 0 < file.size
  · simp only [updateLazyManifestStep, if_pos h0]
  · simp only [updateLazyManifestStep, if_neg h0]
    cases hl : lookupAssetEntry a file.path with
    | none => rfl
    | some kv =>
        obtain ⟨key, av⟩ := kv
        by_cases hc : lazyConflictAdopt av file = true
        · simp only [if_pos hc]
        · simp only [if_neg hc]

theorem updateLazyManifestFold_fst (tree : GoStr → Bool)
    (u1 u2 : File → Except GoStr Unit) (files : List File) :
    ∀ (a1 a2 : List (GoStr × LazyAsset)) (l1 l2 : List GoStr), a1 = a2 →
      (files.foldl (updateLazyManifestStep tree u1) (a1, l1)).1 =
      (files.foldl (updateLazyManifestStep tree u2) (a2, l2)).1 := by
  induction files with
  | nil => intro a1 a2 l1 l2 h; simpa using h
  | cons f rest ih =>
      intro a1 a2 l1 l2 h
      subst h
      have hstep := updateLazyManifestStep_fst tree u1 u2 a1 l1 l2 f
      have e1 : updateLazyManifestStep tree u1 (a1, l1) f =
          ((updateLazyManifestStep tree u1 (a1, l1) f).1,
           (updateLazyManifestStep tree u1 (a1, l1) f).2) := rfl
      have e2 : updateLazyManifestStep tree u2 (a1, l2) f =
          ((updateLazyManifestStep tree u2 (a1, l2) f).1,
           (updateLazyManifestStep tree u2 (a1, l2) f).2) := rfl
      calc (List.foldl (updateLazyManifestStep tree u1)
              (updateLazyManifestStep tree u1 (a1, l1) f) rest).1
          = (List.foldl (updateLazyManifestStep tree u2)
              (updateLazyManifestStep tree u2 (a1, l2) f) rest).1 := by
            rw [e1, e2]
            exact ih _ _ _ _ hstep

/-- Claim C2 counterexample: with a cloud whose every upload fails,
`uploadLazyFileChunks` returns an error for `fileC2`, yet
`updateLazyManifest` over `[fileC2]` still returns success — the upload
error is only logged, so a push is not stopped by it. -/
theorem updateLazyManifest_swallows_upload_error :
    exceptIsOk (uploadLazyFileChunks (some upObjFail) fileC2) = false
  ∧ exceptIsOk (updateLazyManifest noLocalBytes
      (uploadLazyFileChunks (some upObjFail)) saveOk [] [fileC2]).1 = true
  ∧ (updateLazyManifest noLocalBytes
      (uploadLazyFileChunks (some upObjFail)) saveOk [] [fileC2]).2 =
      [str "network down"] := by
  refine ⟨rfl, rfl, rfl⟩

/-- Claim C2 amended: chunk-upload failures during `updateLazyManifest` are
logged and swallowed — the returned manifest and error are independent of
the uploader's outcomes; `uploadLazyFileChunks` itself succeeds exactly when
every chunk object upload succeeds. -/
theorem updateLazyManifest_upload_errors_only_logged (tree : GoStr → Bool)
    (u1 u2 : File → Except GoStr Unit)
    (save : List (GoStr × LazyAsset) → Except GoStr Unit)
    (assets : List (GoStr × LazyAsset)) (files : List File)
    (upObject : GoStr → Except GoStr Unit) (file : File) :
    (updateLazyManifest tree u1 save assets files).1 =
      (updateLazyManifest tree u2 save assets files).1
  ∧ (exceptIsOk (uploadLazyFileChunks (some upObject) file) = true ↔
      ∀ c ∈ file.chunks, exceptIsOk (upObject (chunkObjectPath c)) = true) := by
  constructor
  · have h := updateLazyManifestFold_fst tree u1 u2 files assets assets [] [] rfl
    simp only [updateLazyManifest]
    rw [h]
  · exact uploadChunksLoop_ok_iff upObject file.chunks

/-- Claim C2 amended witness: the manifest update's result is the same under an
always-failing uploader and an always-succeeding one. -/
theorem updateLazyManifest_upload_errors_only_logged_witness :
    (updateLazyManifest noLocalBytes
        (uploadLazyFileChunks (some upObjFail)) saveOk [] [fileC2]).1 =
    (updateLazyManifest noLocalBytes (fun _ => .ok ()) saveOk [] [fileC2]).1 :=
  (updateLazyManifest_upload_errors_only_logged noLocalBytes
      (uploadLazyFileChunks (some upObjFail)) (fun _ => .ok ()) saveOk []
      [fileC2] upObjFail fileC2).1

theorem chunksMismatch_self (l : List GoStr) : chunksMismatch l l = false := by
  induction l with
  | nil => rfl
  | cons x xs ih => simp [chunksMismatch, ih]

theorem chunksMismatch_iff_ne (a f : List GoStr) (h : a.length = f.length) :
    chunksMismatch a f = true ↔ a ≠ f := by
  induction a generalizing f with
  | nil =>
      cases f with
      | nil => simp [chunksMismatch]
      | cons y ys => simp at h
  | cons x xs ih =>
      cases f with
      | nil => simp at h
      | cons y ys =>
          have h2 : xs.length = ys.length := by simpa using h
          simp [chunksMismatch, ih ys h2, List.cons.injEq, not_and_or]
          tauto

/-- Claim C3 counterexample: observation `fileC3` observes `assetC3` with the same modified
time, size and chunk count but a different second chunk id, so the chunk
lists differ; the claim says the observation is adopted, but the code keeps
the existing entry unchanged (the equal-time branch compares only size and
chunk count). -/
theorem resolveExistingLazyAsset_counterexample :
    fileC3.updated = assetC3.modified
  ∧ fileC3.size = assetC3.size
  ∧ assetC3.chunks.length = fileC3.chunks.length
  ∧ assetC3.chunks ≠ fileC3.chunks
  ∧ resolveExistingLazyAsset noLocalBytes assetC3 fileC3 = assetC3
  ∧ applyFileToAsset noLocalBytes assetC3 fileC3 ≠ assetC3 := by
  refine ⟨rfl, rfl, rfl, by decide, by decide, by decide⟩

/-- Claim C3 amended: the code's resolution of an existing entry against an
observation equals the rule: adopt when the observed modified time is
greater; keep when smaller; when equal, keep exactly when sizes and chunk
counts agree but the chunk id lists differ, and otherwise adopt (rewriting
the entry with the observed values). -/
theorem resolveExistingLazyAsset_eq_spec (tree : GoStr → Bool)
    (asset : LazyAsset) (file : File) :
    resolveExistingLazyAsset tree asset file =
      resolveLazyEntrySpec tree asset file := by
  unfold resolveExistingLazyAsset resolveLazyEntrySpec lazyConflictAdopt
    hasLazyFileConflict
  by_cases hm : asset.modified = file.updated
  · by_cases hs : asset.size = file.size
    · by_cases hlen : asset.chunks.length = file.chunks.length
      · by_cases hch : asset.chunks = file.chunks
        · simp [hm, hs, hlen, hch, chunksMismatch_self]
        · have hmm : chunksMismatch asset.chunks file.chunks = true :=
            (chunksMismatch_iff_ne asset.chunks file.chunks hlen).mpr hch
          simp [hm, hs, hlen, hch, hmm]
      · have hlen2 : ¬ file.chunks.length = asset.chunks.length :=
          fun he => hlen he.symm
        simp [hm, hs, hlen, hlen2]
    · have hs2 : ¬ file.size = asset.size := fun he => hs he.symm
      simp [hm, hs, hs2]
  · rcases lt_or_gt_of_ne hm with hlt | hgt
    · have hnlt : ¬ file.updated < asset.modified := by omega
      simp [hm, hlt, hnlt]
    · have hnlt : ¬ asset.modified < file.updated := by omega
      simp [hm, hgt, hnlt]

theorem updateFromCloudFile_lookup (patterns : List GoStr)
    (m : List (GoStr × File)) (f : File) (p : GoStr) :
    alLookup (updateFromCloudFile patterns m f) p = alLookup m p ∨
      (f.path = p ∧ alLookup (updateFromCloudFile patterns m f) p = some f) := by
  unfold updateFromCloudFile
  by_cases hlazy : isLazyLoadingFile patterns f.path = true
  · simp only [hlazy, if_true]
    cases hl : alLookup m f.path with
    | some old =>
        by_cases hu : old.updated ≠ f.updated
        · by_cases hp : p = f.path
          · subst hp
            exact Or.inr ⟨rfl, by simp [hu, alLookup_alInsert_self]⟩
          · exact Or.inl (by simp [hu, alLookup_alInsert_ne m f.path p f hp])
        · exact Or.inl (by simp [hu])
    | none =>
        by_cases hp : p = f.path
        · subst hp
          exact Or.inr ⟨rfl, alLookup_alInsert_self m f.path f⟩
        · exact Or.inl (alLookup_alInsert_ne m f.path p f hp)
  · exact Or.inl (by simp [hlazy])

theorem updateFromCloudFile_isSome (patterns : List GoStr)
    (m : List (GoStr × File)) (f : File) (p : GoStr)
    (h : (alLookup m p).isSome = true) :
    (alLookup (updateFromCloudFile patterns m f) p).isSome = true := by
  rcases updateFromCloudFile_lookup patterns m f p with he | ⟨_, he⟩
  · rw [he]; exact h
  · rw [he]; rfl

theorem updateFromCloudFile_nonmatching (patterns : List GoStr)
    (m : List (GoStr × File)) (f : File) (p : GoStr)
    (hp : isLazyLoadingFile patterns p = false) :
    alLookup (updateFromCloudFile patterns m f) p = alLookup m p := by
  by_cases hfp : f.path = p
  · subst hfp
    simp [updateFromCloudFile, hp]
  · rcases updateFromCloudFile_lookup patterns m f p with he | ⟨hfp2, _⟩
    · exact he
    · exact absurd hfp2 hfp

theorem applyCloudFiles_lookup (patterns : List GoStr) (files : List File) :
    ∀ (m : List (GoStr × File)) (p : GoStr),
      alLookup (applyCloudFiles patterns m files) p = alLookup m p ∨
        ∃ f, f ∈ files ∧ f.path = p ∧
          alLookup (applyCloudFiles patterns m files) p = some f := by
  induction files with
  | nil => intro m p; exact Or.inl rfl
  | cons f rest ih =>
      intro m p
      have heq : applyCloudFiles patterns m (f :: rest) =
          applyCloudFiles patterns (updateFromCloudFile patterns m f) rest := rfl
      rw [heq]
      rcases ih (updateFromCloudFile patterns m f) p with he | ⟨g, hg, hgp, hfin⟩
      · rcases updateFromCloudFile_lookup patterns m f p with h1 | ⟨hp1, h1⟩
        · exact Or.inl (by rw [he, h1])
        · exact Or.inr ⟨f, List.mem_cons_self f rest, hp1, by rw [he, h1]⟩
      · exact Or.inr ⟨g, List.mem_cons_of_mem f hg, hgp, hfin⟩

theorem applyCloudFiles_isSome (patterns : List GoStr) (files : List File) :
    ∀ (m : List (GoStr × File)) (p : GoStr),
      (alLookup m p).isSome = true →
        (alLookup (applyCloudFiles patterns m files) p).isSome = true := by
  induction files with
  | nil => intro m p h; exact h
  | cons f rest ih =>
      intro m p h
      exact ih (updateFromCloudFile patterns m f) p
        (updateFromCloudFile_isSome patterns m f p h)

theorem applyCloudFiles_nonmatching (patterns : List GoStr) (files : List File) :
    ∀ (m : List (GoStr × File)) (p : GoStr),
      isLazyLoadingFile patterns p = false →
        alLookup (applyCloudFiles patterns m files) p = alLookup m p := by
  induction files with
  | nil => intro m p _; rfl
  | cons f rest ih =>
      intro m p hp
      have heq : applyCloudFiles patterns m (f :: rest) =
          applyCloudFiles patterns (updateFromCloudFile patterns m f) rest := rfl
      rw [heq, ih (updateFromCloudFile patterns m f) p hp,
        updateFromCloudFile_nonmatching patterns m f p hp]

/-- Claim C10: after `UpdateFromCloudIndex`, every previously tracked path is
still tracked; every tracked path holds either its previous File or a
cloud-observed File for that path; and a path that does not match the
pattern set keeps exactly its previous binding (in particular non-matching
cloud files are never added). -/
theorem UpdateFromCloudIndex_never_deletes (s : LazyIndexManagerState)
    (ci : IndexEntity) (cf : List File) (p : GoStr) :
    ((alLookup s.lazyFiles p).isSome = true →
        (alLookup (UpdateFromCloudIndex s ci cf).1.lazyFiles p).isSome = true)
  ∧ (alLookup (UpdateFromCloudIndex s ci cf).1.lazyFiles p =
        alLookup s.lazyFiles p ∨
      ∃ f, f ∈ cf ∧ f.path = p ∧
        alLookup (UpdateFromCloudIndex s ci cf).1.lazyFiles p = some f)
  ∧ (isLazyLoadingFile s.patterns p = false →
      alLookup (UpdateFromCloudIndex s ci cf).1.lazyFiles p =
        alLookup s.lazyFiles p) := by
  by_cases hid : ci.id = s.lastCloudID
  · simp [UpdateFromCloudIndex, hid]
  · have h1 : (UpdateFromCloudIndex s ci cf).1.lazyFiles =
        applyCloudFiles s.patterns s.lazyFiles cf := by
      simp [UpdateFromCloudIndex, hid, lazyIndexSave]
    refine ⟨?_, ?_, ?_⟩ <;> rw [h1]
    · exact applyCloudFiles_isSome s.patterns cf s.lazyFiles p
    · exact applyCloudFiles_lookup s.patterns cf s.lazyFiles p
    · exact applyCloudFiles_nonmatching s.patterns cf s.lazyFiles p

/-- Claim C10 witness: a genuinely updated state (new cloud id, a newer
observation of the tracked path) still tracks the previously tracked
path. -/
theorem UpdateFromCloudIndex_never_deletes_witness :
    (alLookup (UpdateFromCloudIndex limState0 ⟨str "idx2"⟩ [fileV2]).1.lazyFiles
        (str "/assets/v.mp4")).isSome = true :=
  (UpdateFromCloudIndex_never_deletes limState0 ⟨str "idx2"⟩ [fileV2]
      (str "/assets/v.mp4")).1 (by decide)

end Dejavu
